import Mathlib

/-!
Shallow embedding of the calculator repository (calculator.py and main.py).

The Calculator engine of calculator.py is modelled as a record holding the
history list and the last result; every operation is a function from the
record to the record, returning the produced value as well.  Python numbers
(int or float) are modelled by the PyNum type: machine floats are idealised
as rationals, and the transcendental library routines of the math module
(sqrt, log, sin, cos, tan, radians), the builtin ** on floats, the float
repr algorithm, and the restricted eval fallback are opaque parameters
collected in the Prims structure, since their bit-exact float behaviour is
not representable; every theorem below holds for all instantiations.
Non-finite float literals (inf, nan), underscore separators in numeric
literals and non-ASCII text are outside the scope of the model.

The text interpreter of main.py (CalculatorCLI.parse_expression) is
modelled by parseCore (the body of the try block) and parse_expression
(the try/except wrapper).  The regular expressions used by the source are
hand-translated to anchored matchers over character lists, mirroring
re.match semantics (match at the start, trailing characters ignored).
-/

attribute [local semireducible] Rat.add Rat.mul Rat.sub Rat.inv

/-- ASCII fragment of the whitespace class used by str.strip and the regex
class \s in main.py. -/
def isPySpace (c : Char) : Bool :=
  c = ' ' || c = '\t' || c = '\n' || c = '\r' || c = '\x0b' || c = '\x0c'

/-- Model of str.strip: drop leading and trailing whitespace. -/
def trimChars (cs : List Char) : List Char :=
  ((cs.dropWhile isPySpace).reverse.dropWhile isPySpace).reverse

/-- Longest prefix of ASCII digits together with the remainder; the unit of
the regex atom \d+ (greedy). -/
def takeDigits : List Char → List Char × List Char
  | [] => ([], [])
  | c :: cs =>
    if c.isDigit then ((c :: (takeDigits cs).1), (takeDigits cs).2)
    else ([], c :: cs)

/-- Longest whitespace prefix together with the remainder; the unit of the
regex atoms \s* and \s+ (greedy). -/
def takeWS : List Char → List Char × List Char
  | [] => ([], [])
  | c :: cs =>
    if isPySpace c then ((c :: (takeWS cs).1), (takeWS cs).2)
    else ([], c :: cs)

/-- Numeric value of a digit string (the int() reading of a \d+ group). -/
def digitsNat (ds : List Char) : ℕ :=
  ds.foldl (fun a c => 10 * a + (c.toNat - 48)) 0

/-- Exact value of the decimal literal with integer digits ds and fraction
digits fs, as float() computes it (idealised without rounding). -/
def decVal (ds fs : List Char) : ℚ :=
  (digitsNat ds : ℚ) + (digitsNat fs : ℚ) / (10 : ℚ) ^ fs.length

/-- Model of Python str.split(sep) for a single-character separator:
split on every occurrence. -/
def splitOnChar (sep : Char) : List Char → List (List Char)
  | [] => [[]]
  | c :: cs =>
    if c = sep then [] :: splitOnChar sep cs
    else
      match splitOnChar sep cs with
      | [] => [[c]]
      | p :: ps => (c :: p) :: ps

/-- Split at the first occurrence of a character, when present.  (Used only
to state the published reading of the operator dispatch; the source code
itself splits on every occurrence.) -/
def splitFirstOn (s : String) (sep : Char) : Option (String × String) :=
  match s.data.span (fun c => !(c = sep)) with
  | (pre, _ :: post) => some (⟨pre⟩, ⟨post⟩)
  | (_, []) => none

/-- Substring containment, modelling the Python test pat in s. -/
def containsSeq (pat : List Char) : List Char → Bool
  | [] => pat.isEmpty
  | c :: cs => pat.isPrefixOf (c :: cs) || containsSeq pat cs

/-- Exponent part of a float() literal: either nothing, or e, an optional
sign and a nonempty digit string, consuming the whole remainder.  m is the
value of the mantissa already read. -/
def pyFloatExp (m : ℚ) (r : List Char) : Option ℚ :=
  match r with
  | [] => some m
  | 'e' :: t =>
    let se : ℤ × List Char :=
      match t with
      | '+' :: u => (1, u)
      | '-' :: u => (-1, u)
      | _ => (1, t)
    let es := (takeDigits se.2).1
    let r2 := (takeDigits se.2).2
    if es.isEmpty then none
    else
      match r2 with
      | [] => some (m * (10 : ℚ) ^ (se.1 * (digitsNat es : ℤ)))
      | _ => none
  | _ => none

/-- Model of the builtin float() on an already stripped, lowercased string:
optional sign, then digits with an optional fractional part (at least one
digit overall), then an optional exponent; the entire string must be
consumed.  Returns none where float() raises ValueError. -/
def pyFloat (cs : List Char) : Option ℚ :=
  let sr : ℚ × List Char :=
    match cs with
    | '+' :: t => (1, t)
    | '-' :: t => (-1, t)
    | _ => (1, cs)
  let ds := (takeDigits sr.2).1
  let r1 := (takeDigits sr.2).2
  match r1 with
  | '.' :: t =>
    let fs := (takeDigits t).1
    let r2 := (takeDigits t).2
    if ds.isEmpty && fs.isEmpty then none
    else pyFloatExp (sr.1 * decVal ds fs) r2
  | _ =>
    if ds.isEmpty then none
    else pyFloatExp (sr.1 * decVal ds []) r1

/-- Anchored matcher for the regex atom \d+(?:\.\d+)? : a nonempty digit
string with an optional dot-fraction (taken only when at least one digit
follows the dot, as the regex engine would backtrack otherwise).  Returns
the float() value of the matched group and the unconsumed remainder. -/
def numLit (cs : List Char) : Option (ℚ × List Char) :=
  let ds := (takeDigits cs).1
  let r1 := (takeDigits cs).2
  if ds.isEmpty then none
  else
    match r1 with
    | '.' :: t =>
      let fs := (takeDigits t).1
      if fs.isEmpty then some (decVal ds [], r1)
      else some (decVal ds fs, (takeDigits t).2)
    | _ => some (decVal ds [], r1)

/-- Anchored matcher for the percentage pattern of main.py,
(\d+(?:\.\d+)?)%\s+of\s+(\d+(?:\.\d+)?), returning the two groups
(percent, number) and the unconsumed remainder. -/
def pctM (cs : List Char) : Option (ℚ × ℚ × List Char) :=
  match numLit cs with
  | some (p, '%' :: r2) =>
    let w1 := (takeWS r2).1
    let r3 := (takeWS r2).2
    if w1.isEmpty then none
    else
      match r3 with
      | 'o' :: 'f' :: r4 =>
        let w2 := (takeWS r4).1
        let r5 := (takeWS r4).2
        if w2.isEmpty then none
        else
          match numLit r5 with
          | some (n, r6) => some (p, n, r6)
          | none => none
      | _ => none
  | _ => none

/-- Anchored matcher for the factorial pattern (\d+)! of main.py, returning
the int() value of the digit group and the unconsumed remainder. -/
def factM (cs : List Char) : Option (ℕ × List Char) :=
  let ds := (takeDigits cs).1
  if ds.isEmpty then none
  else
    match (takeDigits cs).2 with
    | '!' :: r => some (digitsNat ds, r)
    | _ => none

/-- Anchored matcher for the square root pattern sqrt\((\d+(?:\.\d+)?)\) of
main.py. -/
def sqrtM (cs : List Char) : Option (ℚ × List Char) :=
  match cs with
  | 's' :: 'q' :: 'r' :: 't' :: '(' :: r =>
    match numLit r with
    | some (v, ')' :: rest) => some (v, rest)
    | _ => none
  | _ => none

/-- Anchored matcher for the logarithm pattern
log\((\d+(?:\.\d+)?),\s*(\d+(?:\.\d+)?)\) of main.py, returning the groups
(number, base). -/
def logM (cs : List Char) : Option (ℚ × ℚ × List Char) :=
  match cs with
  | 'l' :: 'o' :: 'g' :: '(' :: r1 =>
    match numLit r1 with
    | some (n, ',' :: r2) =>
      match numLit (takeWS r2).2 with
      | some (b, ')' :: rest) => some (n, b, rest)
      | _ => none
    | _ => none
  | _ => none

/-- Anchored matcher for the natural logarithm pattern ln\((\d+(?:\.\d+)?)\)
of main.py. -/
def lnM (cs : List Char) : Option (ℚ × List Char) :=
  match cs with
  | 'l' :: 'n' :: '(' :: r =>
    match numLit r with
    | some (v, ')' :: rest) => some (v, rest)
    | _ => none
  | _ => none

/-- The three trigonometric function names recognised by main.py. -/
inductive TrigKind where
  | sin
  | cos
  | tan
deriving DecidableEq

/-- Argument part of the trig pattern: \((\d+(?:\.\d+)?)\). -/
def trigArg (k : TrigKind) (r : List Char) : Option (TrigKind × ℚ × List Char) :=
  match numLit r with
  | some (a, ')' :: rest) => some (k, a, rest)
  | _ => none

/-- Anchored matcher for the trig pattern (sin|cos|tan)\((\d+(?:\.\d+)?)\)
of main.py. -/
def trigM (cs : List Char) : Option (TrigKind × ℚ × List Char) :=
  match cs with
  | 's' :: 'i' :: 'n' :: '(' :: r => trigArg .sin r
  | 'c' :: 'o' :: 's' :: '(' :: r => trigArg .cos r
  | 't' :: 'a' :: 'n' :: '(' :: r => trigArg .tan r
  | _ => none

/-- Anchored matcher for the power pattern
(\d+(?:\.\d+)?)\s*\*\*\s*(\d+(?:\.\d+)?) of main.py, returning the groups
(base, exponent). -/
def powM (cs : List Char) : Option (ℚ × ℚ × List Char) :=
  match numLit cs with
  | some (b, r1) =>
    match (takeWS r1).2 with
    | '*' :: '*' :: r3 =>
      match numLit (takeWS r3).2 with
      | some (e2, rest) => some (b, e2, rest)
      | _ => none
    | _ => none
  | none => none

/-- A Python number as handled by the calculator: an int or a float, the
float idealised as a rational. -/
inductive PyNum where
  | int (n : ℤ)
  | float (q : ℚ)
deriving DecidableEq

/-- Numeric value of a PyNum; Python comparisons and mixed arithmetic
compare and combine ints and floats by value. -/
def PyNum.toQ : PyNum → ℚ
  | .int n => (n : ℚ)
  | .float q => q

/-- Python + : int + int stays int, any float makes the result float. -/
def pyAdd : PyNum → PyNum → PyNum
  | .int a, .int b => .int (a + b)
  | a, b => .float (a.toQ + b.toQ)

/-- Python - with the same promotion rule as pyAdd. -/
def pySub : PyNum → PyNum → PyNum
  | .int a, .int b => .int (a - b)
  | a, b => .float (a.toQ - b.toQ)

/-- Python * with the same promotion rule as pyAdd. -/
def pyMul : PyNum → PyNum → PyNum
  | .int a, .int b => .int (a * b)
  | a, b => .float (a.toQ * b.toQ)

/-- The exceptions the interpreter distinguishes: ZeroDivisionError,
ValueError (the InvalidArgument of the design), and any other Exception. -/
inductive PyErr where
  | zeroDivision (msg : String)
  | valueError (msg : String)
  | other (msg : String)
deriving DecidableEq

/-- Outcome of the restricted eval fallback of main.py: a numeric value, a
non-numeric value, an exception of one of the four types caught next to the
call (SyntaxError, NameError, TypeError, ValueError), or an exception that
propagates to the outer handlers. -/
inductive EvalRes where
  | num (v : PyNum)
  | nonNum
  | caught
  | err (e : PyErr)

/-- Opaque primitives the source delegates to: math module routines, the
float ** operator, the float repr used by str formatting, and the
restricted eval of the fallback.  All theorems hold for every
instantiation. -/
structure Prims where
  e : ℚ
  sqrt : ℚ → ℚ
  log : ℚ → ℚ
  logBase : ℚ → ℚ → ℚ
  pow : PyNum → PyNum → PyNum
  radians : ℚ → ℚ
  sin : ℚ → ℚ
  cos : ℚ → ℚ
  tan : ℚ → ℚ
  floatRepr : ℚ → String
  evalFn : String → EvalRes

/-- Python str() of a number as interpolated by the f-strings of the
source: decimal for ints, the float repr algorithm for floats. -/
def pyStr (P : Prims) : PyNum → String
  | .int n => toString n
  | .float q => P.floatRepr q

/-- The engine state of calculator.py: the history list and the last
result, initialised to [] and 0. -/
structure Calculator where
  history : List String
  last_result : PyNum
deriving DecidableEq

/-- Calculator.add: result, set last_result, append "a + b = result". -/
def Calculator.add (P : Prims) (c : Calculator) (a b : PyNum) : PyNum × Calculator :=
  let result := pyAdd a b
  (result, { history := c.history ++ [pyStr P a ++ " + " ++ pyStr P b ++ " = " ++ pyStr P result],
             last_result := result })

/-- Calculator.subtract: result, set last_result, append "a - b = result". -/
def Calculator.subtract (P : Prims) (c : Calculator) (a b : PyNum) : PyNum × Calculator :=
  let result := pySub a b
  (result, { history := c.history ++ [pyStr P a ++ " - " ++ pyStr P b ++ " = " ++ pyStr P result],
             last_result := result })

/-- Calculator.multiply: result, set last_result, append "a × b = result". -/
def Calculator.multiply (P : Prims) (c : Calculator) (a b : PyNum) : PyNum × Calculator :=
  let result := pyMul a b
  (result, { history := c.history ++ [pyStr P a ++ " × " ++ pyStr P b ++ " = " ++ pyStr P result],
             last_result := result })

/-- Calculator.divide: raise ZeroDivisionError when b == 0, otherwise true
division (always a float), set last_result, append "a ÷ b = result". -/
def Calculator.divide (P : Prims) (c : Calculator) (a b : PyNum) :
    Except PyErr (PyNum × Calculator) :=
  if b.toQ = 0 then .error (.zeroDivision "Cannot divide by zero")
  else
    let result := PyNum.float (a.toQ / b.toQ)
    .ok (result, { history := c.history ++ [pyStr P a ++ " ÷ " ++ pyStr P b ++ " = " ++ pyStr P result],
                   last_result := result })

/-- Calculator.power: the builtin ** (opaque), set last_result, append
"base ^ exponent = result". -/
def Calculator.power (P : Prims) (c : Calculator) (base exponent : PyNum) : PyNum × Calculator :=
  let result := P.pow base exponent
  (result, { history := c.history ++ [pyStr P base ++ " ^ " ++ pyStr P exponent ++ " = " ++ pyStr P result],
             last_result := result })

/-- Calculator.square_root: raise ValueError when number < 0, otherwise
math.sqrt (a float), set last_result, append "√number = result". -/
def Calculator.square_root (P : Prims) (c : Calculator) (number : PyNum) :
    Except PyErr (PyNum × Calculator) :=
  if number.toQ < 0 then
    .error (.valueError "Cannot calculate square root of negative number")
  else
    let result := PyNum.float (P.sqrt number.toQ)
    .ok (result, { history := c.history ++ ["√" ++ pyStr P number ++ " = " ++ pyStr P result],
                   last_result := result })

/-- Calculator.percentage: (number * percent) / 100 (true division, hence a
float), set last_result, append "percent% of number = result". -/
def Calculator.percentage (P : Prims) (c : Calculator) (number percent : PyNum) :
    PyNum × Calculator :=
  let result := PyNum.float ((number.toQ * percent.toQ) / 100)
  (result, { history := c.history ++ [pyStr P percent ++ "% of " ++ pyStr P number ++ " = " ++ pyStr P result],
             last_result := result })

/-- Calculator.factorial: raise ValueError unless the argument is an int
(isinstance test, so every float fails) that is nonnegative; otherwise
math.factorial, set last_result, append "n! = result". -/
def Calculator.factorial (P : Prims) (c : Calculator) (n : PyNum) :
    Except PyErr (PyNum × Calculator) :=
  match n with
  | .float _ => .error (.valueError "Factorial is only defined for non-negative integers")
  | .int m =>
    if m < 0 then .error (.valueError "Factorial is only defined for non-negative integers")
    else
      let result := PyNum.int (Nat.factorial m.toNat)
      .ok (result, { history := c.history ++ [pyStr P (.int m) ++ "! = " ++ pyStr P result],
                     last_result := result })

/-- Calculator.logarithm: raise ValueError when number <= 0, then when
base <= 0 or base == 1; otherwise math.log(number) when base == math.e
(appending "ln(number) = result"), and math.log(number, base) otherwise
(appending "log_base(number) = result"); set last_result. -/
def Calculator.logarithm (P : Prims) (c : Calculator) (number base : PyNum) :
    Except PyErr (PyNum × Calculator) :=
  if number.toQ ≤ 0 then .error (.valueError "Logarithm is only defined for positive numbers")
  else if base.toQ ≤ 0 ∨ base.toQ = 1 then
    .error (.valueError "Logarithm base must be positive and not equal to 1")
  else if base.toQ = P.e then
    let result := PyNum.float (P.log number.toQ)
    .ok (result, { history := c.history ++ ["ln(" ++ pyStr P number ++ ") = " ++ pyStr P result],
                   last_result := result })
  else
    let result := PyNum.float (P.logBase number.toQ base.toQ)
    .ok (result, { history := c.history ++ ["log_" ++ pyStr P base ++ "(" ++ pyStr P number ++ ") = " ++ pyStr P result],
                   last_result := result })

/-- Calculator.sine: degree inputs go through math.radians; append
"sin(angle°) = result" or "sin(angle rad) = result", set last_result. -/
def Calculator.sine (P : Prims) (c : Calculator) (angle : PyNum) (degrees : Bool) :
    PyNum × Calculator :=
  if degrees then
    let result := PyNum.float (P.sin (P.radians angle.toQ))
    (result, { history := c.history ++ ["sin(" ++ pyStr P angle ++ "°) = " ++ pyStr P result],
               last_result := result })
  else
    let result := PyNum.float (P.sin angle.toQ)
    (result, { history := c.history ++ ["sin(" ++ pyStr P angle ++ " rad) = " ++ pyStr P result],
               last_result := result })

/-- Calculator.cosine, structured exactly as Calculator.sine. -/
def Calculator.cosine (P : Prims) (c : Calculator) (angle : PyNum) (degrees : Bool) :
    PyNum × Calculator :=
  if degrees then
    let result := PyNum.float (P.cos (P.radians angle.toQ))
    (result, { history := c.history ++ ["cos(" ++ pyStr P angle ++ "°) = " ++ pyStr P result],
               last_result := result })
  else
    let result := PyNum.float (P.cos angle.toQ)
    (result, { history := c.history ++ ["cos(" ++ pyStr P angle ++ " rad) = " ++ pyStr P result],
               last_result := result })

/-- Calculator.tangent, structured exactly as Calculator.sine. -/
def Calculator.tangent (P : Prims) (c : Calculator) (angle : PyNum) (degrees : Bool) :
    PyNum × Calculator :=
  if degrees then
    let result := PyNum.float (P.tan (P.radians angle.toQ))
    (result, { history := c.history ++ ["tan(" ++ pyStr P angle ++ "°) = " ++ pyStr P result],
               last_result := result })
  else
    let result := PyNum.float (P.tan angle.toQ)
    (result, { history := c.history ++ ["tan(" ++ pyStr P angle ++ " rad) = " ++ pyStr P result],
               last_result := result })

/-- Calculator.clear_history: history.clear(), last_result untouched. -/
def Calculator.clear_history (c : Calculator) : Calculator :=
  { c with history := [] }

/-- Calculator.get_history returns history.copy(); in this value semantics
the copy is the list itself, and the aliasing aspect is treated separately
in the heap model below. -/
def Calculator.get_history (c : Calculator) : List String :=
  c.history

/-- Calculator.get_last_result. -/
def Calculator.get_last_result (c : Calculator) : PyNum :=
  c.last_result

/-- The interpreter state of CalculatorCLI: its Calculator and the running
flag of the interactive loop. -/
structure CLISt where
  calculator : Calculator
  running : Bool
deriving DecidableEq

/-- One iteration of the binary operator loop of main.py for a single
symbol: if the symbol occurs in the text, split on every occurrence; with
exactly two parts that both convert by float(), call the operation and
return its outcome (a ZeroDivisionError from divide propagates, since the
local handler next to the float() calls only catches ValueError, which
these four operations never raise); any other shape falls through (none). -/
def tryOp (P : Prims) (c : Calculator) (sym : Char)
    (opFun : Calculator → PyNum → PyNum → Except PyErr (PyNum × Calculator))
    (expression : String) : Option (Except PyErr (String × Calculator)) :=
  if expression.data.contains sym then
    match splitOnChar sym expression.data with
    | [p1, p2] =>
      match pyFloat (trimChars p1), pyFloat (trimChars p2) with
      | some a, some b =>
        match opFun c (.float a) (.float b) with
        | .ok (r, c') =>
          some (.ok ("✅ " ++ pyStr P (.float a) ++ " " ++ String.singleton sym ++ " "
                      ++ pyStr P (.float b) ++ " = " ++ pyStr P r, c'))
        | .error e => some (.error e)
      | _, _ => none
    | _ => none
  else none

/-- The operators dict iteration of main.py: +, -, *, / in insertion
order, first success wins, none when every candidate falls through. -/
def opLoop (P : Prims) (c : Calculator) (expression : String) :
    Option (Except PyErr (String × Calculator)) :=
  match tryOp P c '+' (fun c a b => .ok (Calculator.add P c a b)) expression with
  | some r => some r
  | none =>
  match tryOp P c '-' (fun c a b => .ok (Calculator.subtract P c a b)) expression with
  | some r => some r
  | none =>
  match tryOp P c '*' (fun c a b => .ok (Calculator.multiply P c a b)) expression with
  | some r => some r
  | none => tryOp P c '/' (Calculator.divide P) expression

/-- The try block of CalculatorCLI.parse_expression, applied to the
already stripped and lowercased line: session commands, then the anchored
patterns in source order, then the ** power form, then the binary operator
loop, then the restricted eval fallback.  An uncaught exception from a
dispatched call is returned as an error carrying the state at raise time. -/
def parseCore (P : Prims) (expression : String) (st : CLISt) :
    Except (PyErr × CLISt) (String × CLISt) :=
  if expression = "quit" ∨ expression = "exit" then
    .ok ("👋 Goodbye!", { st with running := false })
  else if expression = "help" then
    .ok ("", st)
  else if expression = "history" then
    let history := st.calculator.get_history
    if history.isEmpty then
      .ok ("📜 No calculations in history", st)
    else
      .ok ("📜 History:\n" ++ String.intercalate "\n"
            ((history.drop (history.length - 10)).enum.map
              (fun p => "  " ++ toString (p.1 + 1) ++ ". " ++ p.2)), st)
  else if expression = "clear" then
    .ok ("🗑️  History cleared", { st with calculator := st.calculator.clear_history })
  else if expression = "last" then
    .ok ("🔢 Last result: " ++ pyStr P st.calculator.get_last_result, st)
  else
    match pctM expression.data with
    | some (percent, number, _) =>
      let pr := Calculator.percentage P st.calculator (.float number) (.float percent)
      .ok ("✅ " ++ pyStr P (.float percent) ++ "% of " ++ pyStr P (.float number)
            ++ " = " ++ pyStr P pr.1, { st with calculator := pr.2 })
    | none =>
    match factM expression.data with
    | some (n, _) =>
      match Calculator.factorial P st.calculator (.int n) with
      | .ok (r, c') =>
        .ok ("✅ " ++ pyStr P (.int n) ++ "! = " ++ pyStr P r, { st with calculator := c' })
      | .error e => .error (e, st)
    | none =>
    match sqrtM expression.data with
    | some (v, _) =>
      match Calculator.square_root P st.calculator (.float v) with
      | .ok (r, c') =>
        .ok ("✅ √" ++ pyStr P (.float v) ++ " = " ++ pyStr P r, { st with calculator := c' })
      | .error e => .error (e, st)
    | none =>
    match logM expression.data with
    | some (number, base, _) =>
      match Calculator.logarithm P st.calculator (.float number) (.float base) with
      | .ok (r, c') =>
        .ok ("✅ log₍" ++ pyStr P (.float base) ++ "₎(" ++ pyStr P (.float number)
              ++ ") = " ++ pyStr P r, { st with calculator := c' })
      | .error e => .error (e, st)
    | none =>
    match lnM expression.data with
    | some (number, _) =>
      match Calculator.logarithm P st.calculator (.float number) (.float P.e) with
      | .ok (r, c') =>
        .ok ("✅ ln(" ++ pyStr P (.float number) ++ ") = " ++ pyStr P r,
             { st with calculator := c' })
      | .error e => .error (e, st)
    | none =>
    match trigM expression.data with
    | some (.sin, angle, _) =>
      let pr := Calculator.sine P st.calculator (.float angle) true
      .ok ("✅ sin(" ++ pyStr P (.float angle) ++ "°) = " ++ pyStr P pr.1,
           { st with calculator := pr.2 })
    | some (.cos, angle, _) =>
      let pr := Calculator.cosine P st.calculator (.float angle) true
      .ok ("✅ cos(" ++ pyStr P (.float angle) ++ "°) = " ++ pyStr P pr.1,
           { st with calculator := pr.2 })
    | some (.tan, angle, _) =>
      let pr := Calculator.tangent P st.calculator (.float angle) true
      .ok ("✅ tan(" ++ pyStr P (.float angle) ++ "°) = " ++ pyStr P pr.1,
           { st with calculator := pr.2 })
    | none =>
    match (if containsSeq ['*', '*'] expression.data then powM expression.data else none) with
    | some (b, ex, _) =>
      let pr := Calculator.power P st.calculator (.float b) (.float ex)
      .ok ("✅ " ++ pyStr P (.float b) ++ "^" ++ pyStr P (.float ex) ++ " = " ++ pyStr P pr.1,
           { st with calculator := pr.2 })
    | none =>
    match opLoop P st.calculator expression with
    | some (.ok (s, c')) => .ok (s, { st with calculator := c' })
    | some (.error e) => .error (e, st)
    | none =>
    match P.evalFn expression with
    | .num v => .ok ("✅ " ++ expression ++ " = " ++ pyStr P v, st)
    | .err e => .error (e, st)
    | _ => .ok ("❌ Invalid expression. Type 'help' for usage examples.", st)

/-- The except clauses of parse_expression: ZeroDivisionError gets a fixed
message, ValueError and every other Exception are rendered with str(e). -/
def renderPyErr : PyErr → String
  | .zeroDivision _ => "❌ Error: Cannot divide by zero"
  | .valueError m => "❌ Error: " ++ m
  | .other m => "❌ Error: " ++ m

/-- The normalisation expression.strip().lower() at the top of
parse_expression (ASCII lowering). -/
def normalizeInput (s : String) : String :=
  ⟨(trimChars s.data).map Char.toLower⟩

/-- CalculatorCLI.parse_expression: normalise, run the try block, and on an
exception return the rendered error line with the state at raise time. -/
def parse_expression (P : Prims) (expression : String) (st : CLISt) : String × CLISt :=
  match parseCore P (normalizeInput expression) st with
  | .ok r => r
  | .error (e, st') => (renderPyErr e, st')

/-- String s begins with string pat. -/
def strBegins (s pat : String) : Bool :=
  pat.data.isPrefixOf s.data

/-- A tiny store of Python list objects, to express the aliasing content of
get_history (history.copy()): references are indices, reading an absent
reference defaults to []. -/
abbrev Heap := List (List String)

/-- Dereference. -/
def Heap.read (h : Heap) (r : ℕ) : List String :=
  h.getD r []

/-- In-place update of the list object behind a reference (a Python
mutation such as append or clear on the returned list). -/
def Heap.write (h : Heap) (r : ℕ) (v : List String) : Heap :=
  h.set r v

/-- Allocation of a fresh list object. -/
def Heap.alloc (h : Heap) (v : List String) : ℕ × Heap :=
  (h.length, h ++ [v])

/-- Calculator.get_history at the object level: return self.history.copy(),
that is, allocate a fresh list holding the same elements as the history
object and hand back the fresh reference. -/
def getHistoryRef (h : Heap) (histRef : ℕ) : ℕ × Heap :=
  Heap.alloc h (Heap.read h histRef)

/-- A concrete instantiation of the opaque primitives, used to evaluate the
model at concrete inputs.  The evalFn entries record what the builtin eval
returns on the two inputs used below: eval("(5)") is the int 5 and
eval("2+1e+5") is the float 100002.0. -/
def P0 : Prims where
  e := 2
  sqrt := fun _ => 0
  log := fun _ => 0
  logBase := fun _ _ => 0
  pow := fun _ _ => .int 0
  radians := fun q => q
  sin := fun _ => 0
  cos := fun _ => 0
  tan := fun _ => 0
  floatRepr := fun _ => "#"
  evalFn := fun s =>
    if s = "(5)" then .num (.int 5)
    else if s = "2+1e+5" then .num (.float 100002)
    else .caught

/-- The freshly initialised engine of Calculator.__init__. -/
def c0 : Calculator := ⟨[], .int 0⟩

/-- The freshly initialised interpreter state of CalculatorCLI.__init__. -/
def st0 : CLISt := ⟨c0, true⟩

/-- The history/last_result contract of one completed operation: exactly
one formatted entry is appended, and last_result holds the value r the
operation returned. -/
def appendsOne (c : Calculator) (r : PyNum) (c' : Calculator) : Prop :=
  (∃ entry, c'.history = c.history ++ [entry]) ∧ c'.last_result = r


/-- The shapes a \d+(?:\.\d+)? group can take, together with its float()
value: a digit run, or a digit run, a dot and a second digit run. -/
def NumTok (m : List Char) (v : ℚ) : Prop :=
  (∃ ds, ds ≠ [] ∧ (∀ c ∈ ds, c.isDigit = true) ∧ m = ds ∧ v = decVal ds []) ∨
  (∃ ds fs, ds ≠ [] ∧ (∀ c ∈ ds, c.isDigit = true) ∧ fs ≠ [] ∧
    (∀ c ∈ fs, c.isDigit = true) ∧ m = ds ++ '.' :: fs ∧ v = decVal ds fs)

theorem divide_zero_eq (P : Prims) (c : Calculator) (a b : PyNum) (hb : b.toQ = 0) :
    Calculator.divide P c a b = .error (.zeroDivision "Cannot divide by zero") := by
  simp [Calculator.divide, hb]

theorem divide_nonzero_eq (P : Prims) (c : Calculator) (a b : PyNum) (hb : ¬ b.toQ = 0) :
    Calculator.divide P c a b =
      .ok (.float (a.toQ / b.toQ),
           ⟨c.history ++ [pyStr P a ++ " ÷ " ++ pyStr P b ++ " = "
              ++ pyStr P (.float (a.toQ / b.toQ))],
            .float (a.toQ / b.toQ)⟩) := by
  simp [Calculator.divide, hb]

theorem factorial_float_eq (P : Prims) (c : Calculator) (q : ℚ) :
    Calculator.factorial P c (.float q) =
      .error (.valueError "Factorial is only defined for non-negative integers") := rfl

theorem factorial_neg_eq (P : Prims) (c : Calculator) (m : ℤ) (hm : m < 0) :
    Calculator.factorial P c (.int m) =
      .error (.valueError "Factorial is only defined for non-negative integers") := by
  simp [Calculator.factorial, hm]

theorem factorial_nonneg_eq (P : Prims) (c : Calculator) (m : ℤ) (hm : ¬ m < 0) :
    Calculator.factorial P c (.int m) =
      .ok (.int (Nat.factorial m.toNat),
           ⟨c.history ++ [pyStr P (.int m) ++ "! = " ++ pyStr P (.int (Nat.factorial m.toNat))],
            .int (Nat.factorial m.toNat)⟩) := by
  simp [Calculator.factorial, hm]

theorem logarithm_nonpos_eq (P : Prims) (c : Calculator) (number base : PyNum)
    (hn : number.toQ ≤ 0) :
    Calculator.logarithm P c number base =
      .error (.valueError "Logarithm is only defined for positive numbers") := by
  rw [Calculator.logarithm, if_pos hn]

theorem logarithm_badbase_eq (P : Prims) (c : Calculator) (number base : PyNum)
    (hn : ¬ number.toQ ≤ 0) (hb : base.toQ ≤ 0 ∨ base.toQ = 1) :
    Calculator.logarithm P c number base =
      .error (.valueError "Logarithm base must be positive and not equal to 1") := by
  rw [Calculator.logarithm, if_neg hn, if_pos hb]

theorem logarithm_e_eq (P : Prims) (c : Calculator) (number base : PyNum)
    (hn : ¬ number.toQ ≤ 0) (hb : ¬ (base.toQ ≤ 0 ∨ base.toQ = 1)) (he : base.toQ = P.e) :
    Calculator.logarithm P c number base =
      .ok (.float (P.log number.toQ),
           ⟨c.history ++ ["ln(" ++ pyStr P number ++ ") = " ++ pyStr P (.float (P.log number.toQ))],
            .float (P.log number.toQ)⟩) := by
  rw [Calculator.logarithm, if_neg hn, if_neg hb, if_pos he]

theorem logarithm_base_eq (P : Prims) (c : Calculator) (number base : PyNum)
    (hn : ¬ number.toQ ≤ 0) (hb : ¬ (base.toQ ≤ 0 ∨ base.toQ = 1)) (he : ¬ base.toQ = P.e) :
    Calculator.logarithm P c number base =
      .ok (.float (P.logBase number.toQ base.toQ),
           ⟨c.history ++ ["log_" ++ pyStr P base ++ "(" ++ pyStr P number ++ ") = "
              ++ pyStr P (.float (P.logBase number.toQ base.toQ))],
            .float (P.logBase number.toQ base.toQ)⟩) := by
  rw [Calculator.logarithm, if_neg hn, if_neg hb, if_neg he]

theorem divide_ok_appendsOne (P : Prims) (c : Calculator) (a b : PyNum)
    (r : PyNum) (c' : Calculator) (h : Calculator.divide P c a b = .ok (r, c')) :
    appendsOne c r c' := by
  rw [Calculator.divide] at h
  split at h
  · cases h
  · simp only [Except.ok.injEq, Prod.mk.injEq] at h
    obtain ⟨rfl, rfl⟩ := h
    exact ⟨⟨_, rfl⟩, rfl⟩

theorem square_root_ok_appendsOne (P : Prims) (c : Calculator) (x : PyNum)
    (r : PyNum) (c' : Calculator) (h : Calculator.square_root P c x = .ok (r, c')) :
    appendsOne c r c' := by
  rw [Calculator.square_root] at h
  split at h
  · cases h
  · simp only [Except.ok.injEq, Prod.mk.injEq] at h
    obtain ⟨rfl, rfl⟩ := h
    exact ⟨⟨_, rfl⟩, rfl⟩

theorem factorial_ok_appendsOne (P : Prims) (c : Calculator) (n : PyNum)
    (r : PyNum) (c' : Calculator) (h : Calculator.factorial P c n = .ok (r, c')) :
    appendsOne c r c' := by
  cases n with
  | float q => rw [factorial_float_eq] at h; cases h
  | int m =>
    by_cases hm : m < 0
    · rw [factorial_neg_eq P c m hm] at h; cases h
    · rw [factorial_nonneg_eq P c m hm] at h
      simp only [Except.ok.injEq, Prod.mk.injEq] at h
      obtain ⟨rfl, rfl⟩ := h
      exact ⟨⟨_, rfl⟩, rfl⟩

theorem logarithm_ok_appendsOne (P : Prims) (c : Calculator) (x y : PyNum)
    (r : PyNum) (c' : Calculator) (h : Calculator.logarithm P c x y = .ok (r, c')) :
    appendsOne c r c' := by
  rw [Calculator.logarithm] at h
  split at h
  · cases h
  · split at h
    · cases h
    · split at h <;>
      · simp only [Except.ok.injEq, Prod.mk.injEq] at h
        obtain ⟨rfl, rfl⟩ := h
        exact ⟨⟨_, rfl⟩, rfl⟩

/-- C7: every engine operation that completes successfully appends exactly
one formatted description to history, overwrites last_result with the
result of the operation, and returns that same result. -/
theorem c7_operations_record (P : Prims) (c : Calculator) (a b x n ang : PyNum)
    (deg : Bool) :
    appendsOne c (Calculator.add P c a b).1 (Calculator.add P c a b).2 ∧
    appendsOne c (Calculator.subtract P c a b).1 (Calculator.subtract P c a b).2 ∧
    appendsOne c (Calculator.multiply P c a b).1 (Calculator.multiply P c a b).2 ∧
    appendsOne c (Calculator.power P c a b).1 (Calculator.power P c a b).2 ∧
    appendsOne c (Calculator.percentage P c a b).1 (Calculator.percentage P c a b).2 ∧
    appendsOne c (Calculator.sine P c ang deg).1 (Calculator.sine P c ang deg).2 ∧
    appendsOne c (Calculator.cosine P c ang deg).1 (Calculator.cosine P c ang deg).2 ∧
    appendsOne c (Calculator.tangent P c ang deg).1 (Calculator.tangent P c ang deg).2 ∧
    (∀ r c', Calculator.divide P c a b = .ok (r, c') → appendsOne c r c') ∧
    (∀ r c', Calculator.square_root P c x = .ok (r, c') → appendsOne c r c') ∧
    (∀ r c', Calculator.factorial P c n = .ok (r, c') → appendsOne c r c') ∧
    (∀ r c', Calculator.logarithm P c a b = .ok (r, c') → appendsOne c r c') := by
  refine ⟨⟨⟨_, rfl⟩, rfl⟩, ⟨⟨_, rfl⟩, rfl⟩, ⟨⟨_, rfl⟩, rfl⟩, ⟨⟨_, rfl⟩, rfl⟩,
    ⟨⟨_, rfl⟩, rfl⟩, ?_, ?_, ?_,
    fun r c' h => divide_ok_appendsOne P c a b r c' h,
    fun r c' h => square_root_ok_appendsOne P c x r c' h,
    fun r c' h => factorial_ok_appendsOne P c n r c' h,
    fun r c' h => logarithm_ok_appendsOne P c a b r c' h⟩ <;>
  · cases deg <;> exact ⟨⟨_, rfl⟩, rfl⟩

/-- Witness for C7 at concrete inputs, with the divide hypothesis
discharged at 1 ÷ 2. -/
theorem c7_operations_record_witness :
    appendsOne c0 (Calculator.add P0 c0 (.int 1) (.int 2)).1
      (Calculator.add P0 c0 (.int 1) (.int 2)).2 ∧
    appendsOne c0 (.float (1 / 2))
      ⟨["1 ÷ 2 = #"], .float (1 / 2)⟩ :=
  ⟨(c7_operations_record P0 c0 (.int 1) (.int 2) (.int 0) (.int 0) (.int 0) true).1,
   (c7_operations_record P0 c0 (.int 1) (.int 2) (.int 0) (.int 0) (.int 0) true).2.2.2.2.2.2.2.2.1
     (.float (1 / 2)) ⟨["1 ÷ 2 = #"], .float (1 / 2)⟩ (by rfl)⟩

/-- C4: divide raises ZeroDivisionError exactly when the divisor equals
zero, and otherwise returns the true quotient. -/
theorem c4_divide_iff (P : Prims) (c : Calculator) (a b : PyNum) :
    ((∃ msg, Calculator.divide P c a b = .error (.zeroDivision msg)) ↔ b.toQ = 0) ∧
    (b.toQ ≠ 0 →
      ∃ c', Calculator.divide P c a b = .ok (.float (a.toQ / b.toQ), c')) := by
  constructor
  · constructor
    · rintro ⟨msg, hmsg⟩
      by_contra hb
      rw [divide_nonzero_eq P c a b hb] at hmsg
      cases hmsg
    · intro hb
      exact ⟨_, divide_zero_eq P c a b hb⟩
  · intro hb
    exact ⟨_, divide_nonzero_eq P c a b hb⟩

/-- Witness for C4: divide(5, 0) raises and divide(1, 2) returns 1/2. -/
theorem c4_divide_iff_witness :
    (∃ msg, Calculator.divide P0 c0 (.int 5) (.int 0) = .error (.zeroDivision msg)) ∧
    (∃ c', Calculator.divide P0 c0 (.int 1) (.int 2) =
      .ok (.float ((PyNum.int 1).toQ / (PyNum.int 2).toQ), c')) :=
  ⟨(c4_divide_iff P0 c0 (.int 5) (.int 0)).1.mpr (by decide),
   (c4_divide_iff P0 c0 (.int 1) (.int 2)).2 (by decide)⟩

/-- C5: factorial(0) is 1; for integer n with 1 <= n both factorial(n) and
factorial(n-1) succeed and the former is n times the latter; every negative
integer and every float argument raises ValueError. -/
theorem c5_factorial_spec (P : Prims) (c : Calculator) (m : ℤ) (q : ℚ) :
    (∃ c', Calculator.factorial P c (.int 0) = .ok (.int 1, c')) ∧
    (1 ≤ m → ∃ k k' c' c'', Calculator.factorial P c (.int m) = .ok (.int k, c') ∧
      Calculator.factorial P c (.int (m - 1)) = .ok (.int k', c'') ∧ k = m * k') ∧
    (m < 0 → ∃ msg, Calculator.factorial P c (.int m) = .error (.valueError msg)) ∧
    (∃ msg, Calculator.factorial P c (.float q) = .error (.valueError msg)) := by
  refine ⟨⟨_, factorial_nonneg_eq P c 0 (by omega)⟩, ?_, ?_,
    ⟨_, factorial_float_eq P c q⟩⟩
  · intro hm
    refine ⟨_, _, _, _, factorial_nonneg_eq P c m (by omega),
      factorial_nonneg_eq P c (m - 1) (by omega), ?_⟩
    have ht : m.toNat = (m - 1).toNat + 1 := by omega
    rw [ht, Nat.factorial_succ]
    push_cast
    rw [Int.toNat_of_nonneg (by omega)]
    ring
  · intro hm
    exact ⟨_, factorial_neg_eq P c m hm⟩

/-- Witness for C5 with the recurrence hypothesis discharged at n = 3. -/
theorem c5_factorial_spec_witness :
    ∃ k k' c' c'', Calculator.factorial P0 c0 (.int 3) = .ok (.int k, c') ∧
      Calculator.factorial P0 c0 (.int (3 - 1)) = .ok (.int k', c'') ∧ k = 3 * k' :=
  (c5_factorial_spec P0 c0 3 0).2.1 (by decide)

/-- C6: logarithm raises ValueError exactly when number <= 0 or base <= 0
or base == 1, and otherwise returns the library logarithm (natural log
when the base equals math.e, log to the given base otherwise). -/
theorem c6_logarithm_iff (P : Prims) (c : Calculator) (number base : PyNum) :
    ((∃ msg, Calculator.logarithm P c number base = .error (.valueError msg)) ↔
      (number.toQ ≤ 0 ∨ base.toQ ≤ 0 ∨ base.toQ = 1)) ∧
    (¬(number.toQ ≤ 0 ∨ base.toQ ≤ 0 ∨ base.toQ = 1) →
      ∃ c', Calculator.logarithm P c number base =
        .ok (.float (if base.toQ = P.e then P.log number.toQ
                     else P.logBase number.toQ base.toQ), c')) := by
  constructor
  · constructor
    · rintro ⟨msg, hmsg⟩
      by_cases hn : number.toQ ≤ 0
      · exact Or.inl hn
      by_cases hb : base.toQ ≤ 0 ∨ base.toQ = 1
      · exact Or.inr hb
      exfalso
      by_cases he : base.toQ = P.e
      · rw [logarithm_e_eq P c number base hn hb he] at hmsg; cases hmsg
      · rw [logarithm_base_eq P c number base hn hb he] at hmsg; cases hmsg
    · intro hc
      rcases hc with hn | hb
      · exact ⟨_, logarithm_nonpos_eq P c number base hn⟩
      · by_cases hn : number.toQ ≤ 0
        · exact ⟨_, logarithm_nonpos_eq P c number base hn⟩
        · exact ⟨_, logarithm_badbase_eq P c number base hn hb⟩
  · intro hc
    push_neg at hc
    obtain ⟨hn, hb1, hb2⟩ := hc
    have hnn : ¬ number.toQ ≤ 0 := not_le.mpr hn
    have hb : ¬ (base.toQ ≤ 0 ∨ base.toQ = 1) := by
      rintro (hx | hx)
      · exact absurd hx (not_le.mpr hb1)
      · exact hb2 hx
    by_cases he : base.toQ = P.e
    · rw [if_pos he]
      exact ⟨_, logarithm_e_eq P c number base hnn hb he⟩
    · rw [if_neg he]
      exact ⟨_, logarithm_base_eq P c number base hnn hb he⟩

/-- Witness for C6: log(8, 2) succeeds (the base happens to equal the
math.e slot of the P0 instantiation, exercising the natural-log branch),
and the error equivalence at number 0 produces a ValueError. -/
theorem c6_logarithm_iff_witness :
    (∃ c', Calculator.logarithm P0 c0 (.int 8) (.int 2) =
      .ok (.float (if (PyNum.int 2).toQ = P0.e then P0.log (PyNum.int 8).toQ
                   else P0.logBase (PyNum.int 8).toQ (PyNum.int 2).toQ), c')) ∧
    (∃ msg, Calculator.logarithm P0 c0 (.int 0) (.int 2) = .error (.valueError msg)) :=
  ⟨(c6_logarithm_iff P0 c0 (.int 8) (.int 2)).2 (by decide),
   (c6_logarithm_iff P0 c0 (.int 0) (.int 2)).1.mpr (by decide)⟩

/-- C9: clear_history empties the history while leaving last_result as it
was. -/
theorem c9_clear_keeps_last_result (c : Calculator) :
    (Calculator.clear_history c).get_history = [] ∧
    (Calculator.clear_history c).get_last_result = c.get_last_result :=
  ⟨rfl, rfl⟩

/-- C8: get_history hands back a reference distinct from the engine's own
history object, holding the same elements, and writing through the returned
reference leaves the engine's history unchanged. -/
theorem c8_get_history_defensive_copy (h : Heap) (r : ℕ) (hr : r < h.length) :
    (getHistoryRef h r).1 ≠ r ∧
    Heap.read (getHistoryRef h r).2 (getHistoryRef h r).1 = Heap.read h r ∧
    (∀ v, Heap.read (Heap.write (getHistoryRef h r).2 (getHistoryRef h r).1 v) r
          = Heap.read h r) := by
  refine ⟨?_, ?_, ?_⟩
  · simp only [getHistoryRef, Heap.alloc]
    omega
  · simp only [getHistoryRef, Heap.alloc, Heap.read]
    rw [List.getD_append_right _ _ _ _ le_rfl]
    simp
  · intro v
    simp only [getHistoryRef, Heap.alloc, Heap.read, Heap.write]
    rw [List.set_append_right _ _ le_rfl]
    simp only [Nat.sub_self, List.set_cons_zero]
    rw [List.getD_append _ _ _ _ hr]

/-- Witness for C8 at a one-cell heap. -/
theorem c8_get_history_defensive_copy_witness :
    (getHistoryRef [["x"]] 0).1 ≠ 0 ∧
    Heap.read (getHistoryRef [["x"]] 0).2 (getHistoryRef [["x"]] 0).1 =
      Heap.read [["x"]] 0 ∧
    (∀ v, Heap.read (Heap.write (getHistoryRef [["x"]] 0).2 (getHistoryRef [["x"]] 0).1 v) 0
          = Heap.read [["x"]] 0) :=
  c8_get_history_defensive_copy [["x"]] 0 (by decide)

theorem parseCore_error_state (P : Prims) (x : String) (st : CLISt) (e : PyErr) (st' : CLISt)
    (h : parseCore P x st = .error (e, st')) : st' = st := by
  simp only [parseCore] at h
  repeat' split at h
  all_goals first
    | exact Except.noConfusion h
    | (injection h with h1; injection h1 with h2 h3; exact h3.symm)

theorem strBegins_error_line (m : String) :
    strBegins ("❌ Error: " ++ m) "❌ Error" = true := by
  rw [strBegins, String.data_append, List.isPrefixOf_iff_prefix]
  exact List.IsPrefix.trans (by decide) (List.prefix_append _ _)

/-- C3: for every input the interpreter entry point returns a pair rather
than raising: whenever the dispatched call inside the try block raises
(parseCore produces an error), the engine state is the one from before the
raise, and parse_expression converts the exception into a single prefixed
error line. -/
theorem c3_interpreter_never_raises (P : Prims) (s : String) (st : CLISt)
    (e : PyErr) (st' : CLISt)
    (h : parseCore P (normalizeInput s) st = .error (e, st')) :
    st' = st ∧ parse_expression P s st = (renderPyErr e, st) ∧
    strBegins (renderPyErr e) "❌ Error" = true := by
  have hst := parseCore_error_state P (normalizeInput s) st e st' h
  subst hst
  refine ⟨rfl, ?_, ?_⟩
  · rw [parse_expression, h]
  · cases e with
    | zeroDivision m =>
      show strBegins "❌ Error: Cannot divide by zero" "❌ Error" = true
      decide
    | valueError m => exact strBegins_error_line m
    | other m => exact strBegins_error_line m

/-- Witness for C3: the line 5 / 0 raises ZeroDivisionError inside the try
block, and parse_expression renders it as the fixed error line. -/
theorem c3_interpreter_never_raises_witness :
    st0 = st0 ∧
    parse_expression P0 "5 / 0" st0 =
      (renderPyErr (.zeroDivision "Cannot divide by zero"), st0) ∧
    strBegins (renderPyErr (.zeroDivision "Cannot divide by zero")) "❌ Error" = true :=
  c3_interpreter_never_raises P0 "5 / 0" st0 (.zeroDivision "Cannot divide by zero") st0
    (by rfl)

theorem tryOp_ok_effects (P : Prims) (c : Calculator) (sym : Char)
    (opFun : Calculator → PyNum → PyNum → Except PyErr (PyNum × Calculator))
    (expr : String) (s : String) (c' : Calculator)
    (hop : ∀ a b r cc, opFun c a b = .ok (r, cc) → appendsOne c r cc)
    (h : tryOp P c sym opFun expr = some (.ok (s, c'))) :
    ∃ r pre, appendsOne c r c' ∧ s = pre ++ pyStr P r := by
  rw [tryOp] at h
  repeat' split at h
  all_goals try exact Option.noConfusion h
  all_goals try (injection h with h1; exact Except.noConfusion h1)
  rename_i a b r c2 hop2
  injection h with h1
  injection h1 with h2
  injection h2 with h3 h4
  subst h3
  subst h4
  exact ⟨r, _, hop _ _ _ _ hop2, rfl⟩

theorem opLoop_ok_effects (P : Prims) (c : Calculator) (expr : String)
    (s : String) (c' : Calculator)
    (h : opLoop P c expr = some (.ok (s, c'))) :
    ∃ r pre, appendsOne c r c' ∧ s = pre ++ pyStr P r := by
  rw [opLoop] at h
  split at h
  · rename_i r1 h1
    refine tryOp_ok_effects P c '+' _ expr s c' ?_ (h1.trans h)
    intro a b r cc hab
    injection hab with hab
    rw [Prod.ext_iff] at hab
    obtain ⟨h2, h3⟩ := hab
    subst h2
    subst h3
    exact ⟨⟨_, rfl⟩, rfl⟩
  · split at h
    · rename_i r1 h1
      refine tryOp_ok_effects P c '-' _ expr s c' ?_ (h1.trans h)
      intro a b r cc hab
      injection hab with hab
      rw [Prod.ext_iff] at hab
      obtain ⟨h2, h3⟩ := hab
      subst h2
      subst h3
      exact ⟨⟨_, rfl⟩, rfl⟩
    · split at h
      · rename_i r1 h1
        refine tryOp_ok_effects P c '*' _ expr s c' ?_ (h1.trans h)
        intro a b r cc hab
        injection hab with hab
        rw [Prod.ext_iff] at hab
        obtain ⟨h2, h3⟩ := hab
        subst h2
        subst h3
        exact ⟨⟨_, rfl⟩, rfl⟩
      · exact tryOp_ok_effects P c '/' _ expr s c'
          (fun a b r cc hab => divide_ok_appendsOne P c _ _ r cc hab) h

/-- C1 (amended): every successful run of the try block either leaves the
engine history and last_result untouched (session commands other than
clear, the eval fallback, and the invalid-expression report; clear empties
the history while keeping last_result), or - on every structured dispatch
through the engine - appends exactly one history entry, sets last_result
to some value r, and ends the response string with the rendering of that
same r.  The claim as published also asserted the appending behaviour for
the eval fallback; that part is refuted separately. -/
theorem c1_dispatch_round_trip (P : Prims) (x : String) (st : CLISt)
    (resp : String) (st' : CLISt)
    (h : parseCore P x st = .ok (resp, st')) :
    (st'.calculator.last_result = st.calculator.last_result ∧
      (st'.calculator.history = st.calculator.history ∨ st'.calculator.history = [])) ∨
    (∃ r entry pre, st'.calculator.history = st.calculator.history ++ [entry] ∧
      st'.calculator.last_result = r ∧ resp = pre ++ pyStr P r) := by
  simp only [parseCore] at h
  repeat' split at h
  all_goals try exact Except.noConfusion h
  all_goals (injection h with h1; injection h1 with hresp hst; subst hresp; subst hst)
  all_goals try (left; exact ⟨rfl, Or.inl rfl⟩)
  all_goals try (left; exact ⟨rfl, Or.inr rfl⟩)
  all_goals try (right; exact ⟨_, _, _, rfl, rfl, rfl⟩)
  · rename_i r c2 hok
    obtain ⟨⟨entry, hh⟩, hl⟩ := factorial_ok_appendsOne P st.calculator _ r c2 hok
    exact Or.inr ⟨r, entry, _, hh, hl, rfl⟩
  · rename_i r c2 hok
    obtain ⟨⟨entry, hh⟩, hl⟩ := square_root_ok_appendsOne P st.calculator _ r c2 hok
    exact Or.inr ⟨r, entry, _, hh, hl, rfl⟩
  · rename_i r c2 hok
    obtain ⟨⟨entry, hh⟩, hl⟩ := logarithm_ok_appendsOne P st.calculator _ _ r c2 hok
    exact Or.inr ⟨r, entry, _, hh, hl, rfl⟩
  · rename_i r c2 hok
    obtain ⟨⟨entry, hh⟩, hl⟩ := logarithm_ok_appendsOne P st.calculator _ _ r c2 hok
    exact Or.inr ⟨r, entry, _, hh, hl, rfl⟩
  · rename_i s2 c2 hloop
    obtain ⟨r, pre, ⟨⟨entry, hh⟩, hl⟩, hs⟩ := opLoop_ok_effects P st.calculator _ s2 c2 hloop
    exact Or.inr ⟨r, entry, pre, hh, hl, hs⟩

/-- Witness for C1 on the line 2 + 3: the addition dispatch appends one
entry and sets last_result to the reported 5.0. -/
theorem c1_dispatch_round_trip_witness :
    ((⟨⟨["# + # = #"], .float 5⟩, true⟩ : CLISt).calculator.last_result =
        st0.calculator.last_result ∧
      ((⟨⟨["# + # = #"], .float 5⟩, true⟩ : CLISt).calculator.history =
          st0.calculator.history ∨
        (⟨⟨["# + # = #"], .float 5⟩, true⟩ : CLISt).calculator.history = [])) ∨
    (∃ r entry pre,
      (⟨⟨["# + # = #"], .float 5⟩, true⟩ : CLISt).calculator.history =
        st0.calculator.history ++ [entry] ∧
      (⟨⟨["# + # = #"], .float 5⟩, true⟩ : CLISt).calculator.last_result = r ∧
      "✅ # + # = #" = pre ++ pyStr P0 r) :=
  c1_dispatch_round_trip P0 "2 + 3" st0 "✅ # + # = #" ⟨⟨["# + # = #"], .float 5⟩, true⟩
    (by rfl)

/-- C1 counterexample: on the line (5) the eval fallback reports the
numeric result 5 in the response, yet no history entry is appended and
last_result stays 0, refuting the clause extending the round trip to the
fallback evaluator. -/
theorem c1_fallback_counterexample :
    parse_expression P0 "(5)" st0 = ("✅ (5) = 5", st0) ∧
    (parse_expression P0 "(5)" st0).2.calculator.history = [] ∧
    (parse_expression P0 "(5)" st0).2.calculator.last_result ≠ PyNum.int 5 :=
  ⟨by rfl, by rfl, by decide⟩

theorem contains_of_splitOnChar_pair (sep : Char) (cs : List Char) (p1 p2 : List Char)
    (h : splitOnChar sep cs = [p1, p2]) : cs.contains sep = true := by
  induction cs generalizing p1 with
  | nil => simp [splitOnChar] at h
  | cons c t ih =>
    rw [splitOnChar] at h
    by_cases hc : c = sep
    · simp [List.contains_cons, hc]
    · rw [if_neg hc] at h
      match hsp : splitOnChar sep t with
      | [] => rw [hsp] at h; simp at h
      | p :: ps =>
        rw [hsp] at h
        injection h with h1 h2
        subst h2
        have hc2 := ih p (by rw [hsp])
        simp only [List.contains_cons, hc2, Bool.or_true]

theorem opLoop_none_all (P : Prims) (c : Calculator) (expr : String)
    (h : opLoop P c expr = none) :
    tryOp P c '+' (fun cc a b => .ok (Calculator.add P cc a b)) expr = none ∧
    tryOp P c '-' (fun cc a b => .ok (Calculator.subtract P cc a b)) expr = none ∧
    tryOp P c '*' (fun cc a b => .ok (Calculator.multiply P cc a b)) expr = none ∧
    tryOp P c '/' (Calculator.divide P) expr = none := by
  rw [opLoop] at h
  split at h
  · exact Option.noConfusion h
  · rename_i h1
    split at h
    · exact Option.noConfusion h
    · rename_i h2
      split at h
      · exact Option.noConfusion h
      · rename_i h3
        exact ⟨h1, h2, h3, h⟩

theorem tryOp_some_of_parse (P : Prims) (c : Calculator) (sym : Char)
    (opFun : Calculator → PyNum → PyNum → Except PyErr (PyNum × Calculator))
    (expr : String) (p1 p2 : List Char) (a b : ℚ)
    (hct : expr.data.contains sym = true)
    (hsp : splitOnChar sym expr.data = [p1, p2])
    (hfa : pyFloat (trimChars p1) = some a)
    (hfb : pyFloat (trimChars p2) = some b) :
    tryOp P c sym opFun expr =
      some (match opFun c (.float a) (.float b) with
            | .ok (r, c') =>
              .ok ("✅ " ++ pyStr P (.float a) ++ " " ++ String.singleton sym ++ " "
                    ++ pyStr P (.float b) ++ " = " ++ pyStr P r, c')
            | .error e => .error e) := by
  rw [tryOp, if_pos hct, hsp]
  simp only [hfa, hfb]
  split <;> rfl

/-- C2 (amended): in the binary-operator loop the code splits on every
occurrence of the symbol and requires exactly two parts (the symbol occurs
exactly once), not two parts around the first occurrence.  With that
correction the fixed priority holds: a once-occurring + with two float()
parseable parts dispatches add regardless of the later symbols; when + falls
through, - dispatches subtract the same way; then * and /; and the loop
returns none exactly when no symbol admits the two-part parse. -/
theorem c2_operator_loop (P : Prims) (c : Calculator) (expr : String) :
    (∀ p1 p2 a b, expr.data.contains '+' = true →
      splitOnChar '+' expr.data = [p1, p2] →
      pyFloat (trimChars p1) = some a → pyFloat (trimChars p2) = some b →
      opLoop P c expr = some (.ok
        ("✅ " ++ pyStr P (.float a) ++ " " ++ String.singleton '+' ++ " "
          ++ pyStr P (.float b) ++ " = "
          ++ pyStr P (Calculator.add P c (.float a) (.float b)).1,
         (Calculator.add P c (.float a) (.float b)).2))) ∧
    (∀ p1 p2 a b,
      tryOp P c '+' (fun cc a b => .ok (Calculator.add P cc a b)) expr = none →
      expr.data.contains '-' = true →
      splitOnChar '-' expr.data = [p1, p2] →
      pyFloat (trimChars p1) = some a → pyFloat (trimChars p2) = some b →
      opLoop P c expr = some (.ok
        ("✅ " ++ pyStr P (.float a) ++ " " ++ String.singleton '-' ++ " "
          ++ pyStr P (.float b) ++ " = "
          ++ pyStr P (Calculator.subtract P c (.float a) (.float b)).1,
         (Calculator.subtract P c (.float a) (.float b)).2))) ∧
    (∀ p1 p2 a b,
      tryOp P c '+' (fun cc a b => .ok (Calculator.add P cc a b)) expr = none →
      tryOp P c '-' (fun cc a b => .ok (Calculator.subtract P cc a b)) expr = none →
      expr.data.contains '*' = true →
      splitOnChar '*' expr.data = [p1, p2] →
      pyFloat (trimChars p1) = some a → pyFloat (trimChars p2) = some b →
      opLoop P c expr = some (.ok
        ("✅ " ++ pyStr P (.float a) ++ " " ++ String.singleton '*' ++ " "
          ++ pyStr P (.float b) ++ " = "
          ++ pyStr P (Calculator.multiply P c (.float a) (.float b)).1,
         (Calculator.multiply P c (.float a) (.float b)).2))) ∧
    (∀ p1 p2 a b,
      tryOp P c '+' (fun cc a b => .ok (Calculator.add P cc a b)) expr = none →
      tryOp P c '-' (fun cc a b => .ok (Calculator.subtract P cc a b)) expr = none →
      tryOp P c '*' (fun cc a b => .ok (Calculator.multiply P cc a b)) expr = none →
      expr.data.contains '/' = true →
      splitOnChar '/' expr.data = [p1, p2] →
      pyFloat (trimChars p1) = some a → pyFloat (trimChars p2) = some b →
      opLoop P c expr = some
        (match Calculator.divide P c (.float a) (.float b) with
         | .ok (r, c') =>
           .ok ("✅ " ++ pyStr P (.float a) ++ " " ++ String.singleton '/' ++ " "
                 ++ pyStr P (.float b) ++ " = " ++ pyStr P r, c')
         | .error e => .error e)) ∧
    (∀ sym p1 p2 a b, sym ∈ ['+', '-', '*', '/'] → opLoop P c expr = none →
      splitOnChar sym expr.data = [p1, p2] →
      ¬(pyFloat (trimChars p1) = some a ∧ pyFloat (trimChars p2) = some b)) := by
  refine ⟨?_, ?_, ?_, ?_, ?_⟩
  · intro p1 p2 a b hct hsp hfa hfb
    rw [opLoop, tryOp_some_of_parse P c '+' _ expr p1 p2 a b hct hsp hfa hfb]
  · intro p1 p2 a b hplus hct hsp hfa hfb
    rw [opLoop, hplus, tryOp_some_of_parse P c '-' _ expr p1 p2 a b hct hsp hfa hfb]
  · intro p1 p2 a b hplus hminus hct hsp hfa hfb
    rw [opLoop, hplus, hminus,
      tryOp_some_of_parse P c '*' _ expr p1 p2 a b hct hsp hfa hfb]
  · intro p1 p2 a b hplus hminus hmul hct hsp hfa hfb
    rw [opLoop, hplus, hminus, hmul,
      tryOp_some_of_parse P c '/' _ expr p1 p2 a b hct hsp hfa hfb]
  · rintro sym p1 p2 a b hsym hnone hsp ⟨hfa, hfb⟩
    obtain ⟨h1, h2, h3, h4⟩ := opLoop_none_all P c expr hnone
    have hct := contains_of_splitOnChar_pair sym expr.data p1 p2 hsp
    simp only [List.mem_cons, List.not_mem_nil, or_false] at hsym
    rcases hsym with rfl | rfl | rfl | rfl
    · rw [tryOp_some_of_parse P c '+' _ expr p1 p2 a b hct hsp hfa hfb] at h1
      exact Option.noConfusion h1
    · rw [tryOp_some_of_parse P c '-' _ expr p1 p2 a b hct hsp hfa hfb] at h2
      exact Option.noConfusion h2
    · rw [tryOp_some_of_parse P c '*' _ expr p1 p2 a b hct hsp hfa hfb] at h3
      exact Option.noConfusion h3
    · rw [tryOp_some_of_parse P c '/' _ expr p1 p2 a b hct hsp hfa hfb] at h4
      revert h4
      split <;> exact fun h => Option.noConfusion h

/-- Witness for C2 on the line 1 + 2, dispatching add with a = 1.0 and
b = 2.0. -/
theorem c2_operator_loop_witness :
    opLoop P0 c0 "1 + 2" = some (.ok
      ("✅ " ++ pyStr P0 (.float 1) ++ " " ++ String.singleton '+' ++ " "
        ++ pyStr P0 (.float 2) ++ " = "
        ++ pyStr P0 (Calculator.add P0 c0 (.float 1) (.float 2)).1,
       (Calculator.add P0 c0 (.float 1) (.float 2)).2)) :=
  (c2_operator_loop P0 c0 "1 + 2").1 ['1', ' '] [' ', '2'] 1 2
    (by decide) (by decide) (by decide) (by decide)

/-- C2 counterexample: in the line 2+1e+5 the symbol + occurs, splitting at
its first occurrence yields 2 and 1e+5, and both parse by float(); the
claim then demands the add dispatch (which would append a history entry),
but the code splits into three parts, skips every operator, and answers
through the eval fallback, appending nothing. -/
theorem c2_counterexample :
    splitFirstOn "2+1e+5" '+' = some ("2", "1e+5") ∧
    pyFloat (trimChars "2".data) = some 2 ∧
    pyFloat (trimChars "1e+5".data) = some 100000 ∧
    parse_expression P0 "2+1e+5" st0 = ("✅ 2+1e+5 = #", st0) ∧
    (parse_expression P0 "2+1e+5" st0).2.calculator.history = [] ∧
    (Calculator.add P0 st0.calculator (.float 2) (.float 100000)).2.history ≠ [] :=
  ⟨by decide, by decide, by decide, by rfl, by rfl, by decide⟩

theorem takeDigits_split (cs : List Char) :
    (takeDigits cs).1 ++ (takeDigits cs).2 = cs := by
  induction cs with
  | nil => rfl
  | cons c t ih =>
    rw [takeDigits]
    split
    · simpa using ih
    · rfl

theorem takeDigits_all (cs : List Char) : ∀ c ∈ (takeDigits cs).1, c.isDigit = true := by
  induction cs with
  | nil => simp [takeDigits]
  | cons c t ih =>
    rw [takeDigits]
    split
    · rename_i hc
      intro d hd
      rcases List.mem_cons.mp hd with rfl | hd2
      · exact hc
      · exact ih d hd2
    · simp

theorem takeDigits_exact (ds rest : List Char) (hd : ∀ c ∈ ds, c.isDigit = true)
    (hr : ∀ d t, rest = d :: t → d.isDigit = false) :
    takeDigits (ds ++ rest) = (ds, rest) := by
  induction ds with
  | nil =>
    cases rest with
    | nil => rfl
    | cons d t =>
      rw [List.nil_append, takeDigits, if_neg]
      simp [hr d t rfl]
  | cons c ds ih =>
    rw [List.cons_append, takeDigits,
      if_pos (hd c (List.mem_cons_self c ds)),
      ih (fun x hx => hd x (List.mem_cons_of_mem _ hx))]

theorem takeWS_split (cs : List Char) : (takeWS cs).1 ++ (takeWS cs).2 = cs := by
  induction cs with
  | nil => rfl
  | cons c t ih =>
    rw [takeWS]
    split
    · simpa using ih
    · rfl

theorem takeWS_all (cs : List Char) : ∀ c ∈ (takeWS cs).1, isPySpace c = true := by
  induction cs with
  | nil => simp [takeWS]
  | cons c t ih =>
    rw [takeWS]
    split
    · rename_i hc
      intro d hd
      rcases List.mem_cons.mp hd with rfl | hd2
      · exact hc
      · exact ih d hd2
    · simp

theorem takeWS_exact (ws rest : List Char) (hw : ∀ c ∈ ws, isPySpace c = true)
    (hr : ∀ d t, rest = d :: t → isPySpace d = false) :
    takeWS (ws ++ rest) = (ws, rest) := by
  induction ws with
  | nil =>
    cases rest with
    | nil => rfl
    | cons d t =>
      rw [List.nil_append, takeWS, if_neg]
      simp [hr d t rfl]
  | cons c ws ih =>
    rw [List.cons_append, takeWS,
      if_pos (hw c (List.mem_cons_self c ws)),
      ih (fun x hx => hw x (List.mem_cons_of_mem _ hx))]

theorem NumTok_head (m : List Char) (v : ℚ) (h : NumTok m v) :
    ∃ d t, m = d :: t ∧ d.isDigit = true := by
  rcases h with ⟨ds, hne, hall, heq, _⟩ | ⟨ds, fs, hne, hall, _, _, heq, _⟩
  · subst heq
    cases m with
    | nil => exact absurd rfl hne
    | cons d t => exact ⟨d, t, rfl, hall d (List.mem_cons_self d t)⟩
  · subst heq
    cases ds with
    | nil => exact absurd rfl hne
    | cons d t =>
      exact ⟨d, t ++ '.' :: fs, rfl, hall d (List.mem_cons_self d t)⟩

theorem digit_not_ws (c : Char) (h : c.isDigit = true) : isPySpace c = false := by
  rw [isPySpace]
  by_contra hx
  simp only [Bool.not_eq_false, Bool.or_eq_true, decide_eq_true_eq] at hx
  rcases hx with ((((rfl | rfl) | rfl) | rfl) | rfl) | rfl <;> exact absurd h (by decide)

theorem numLit_sound (cs : List Char) (v : ℚ) (rest : List Char)
    (h : numLit cs = some (v, rest)) : ∃ m, NumTok m v ∧ cs = m ++ rest := by
  simp only [numLit] at h
  split at h
  · cases h
  · rename_i hne
    have hds : (takeDigits cs).1 ≠ [] := by
      intro hx
      rw [hx] at hne
      exact hne rfl
    split at h
    · rename_i t hdot
      split at h
      · injection h with h1
        injection h1 with hv hrest
        refine ⟨(takeDigits cs).1,
          Or.inl ⟨(takeDigits cs).1, hds, takeDigits_all cs, rfl, hv.symm⟩, ?_⟩
        rw [← hrest]
        exact (takeDigits_split cs).symm
      · rename_i hfs
        injection h with h1
        injection h1 with hv hrest
        have hfs2 : (takeDigits t).1 ≠ [] := by
          intro hx
          rw [hx] at hfs
          exact hfs rfl
        refine ⟨(takeDigits cs).1 ++ '.' :: (takeDigits t).1,
          Or.inr ⟨(takeDigits cs).1, (takeDigits t).1, hds, takeDigits_all cs,
            hfs2, takeDigits_all t, rfl, hv.symm⟩, ?_⟩
        have h2 : (takeDigits t).1 ++ rest = t := by
          rw [← hrest]
          exact takeDigits_split t
        have h3 : '.' :: t = (takeDigits cs).2 := hdot.symm
        calc cs = (takeDigits cs).1 ++ (takeDigits cs).2 := (takeDigits_split cs).symm
          _ = (takeDigits cs).1 ++ '.' :: t := by rw [h3]
          _ = (takeDigits cs).1 ++ '.' :: ((takeDigits t).1 ++ rest) := by rw [h2]
          _ = ((takeDigits cs).1 ++ '.' :: (takeDigits t).1) ++ rest := by
                simp [List.append_assoc]
    · injection h with h1
      injection h1 with hv hrest
      refine ⟨(takeDigits cs).1,
        Or.inl ⟨(takeDigits cs).1, hds, takeDigits_all cs, rfl, hv.symm⟩, ?_⟩
      rw [← hrest]
      exact (takeDigits_split cs).symm

theorem numLit_complete (m : List Char) (v : ℚ) (hm : NumTok m v) (rest : List Char)
    (hr : ∀ d t, rest = d :: t → d.isDigit = false)
    (hnd : ∀ t, rest ≠ '.' :: t) :
    numLit (m ++ rest) = some (v, rest) := by
  rcases hm with ⟨ds, hne, hall, heq, hv⟩ | ⟨ds, fs, hne, hall, hfne, hfall, heq, hv⟩
  · subst heq
    subst hv
    have hemp : m.isEmpty = false := by
      cases m with
      | nil => exact absurd rfl hne
      | cons _ _ => rfl
    rw [numLit, takeDigits_exact m rest hall hr]
    dsimp only
    rw [if_neg (by rw [hemp]; exact Bool.false_ne_true)]
    split
    · rename_i t
      exact absurd rfl (hnd t)
    · rfl
  · subst heq
    subst hv
    have hemp : ds.isEmpty = false := by
      cases ds with
      | nil => exact absurd rfl hne
      | cons _ _ => rfl
    have hfemp : fs.isEmpty = false := by
      cases fs with
      | nil => exact absurd rfl hfne
      | cons _ _ => rfl
    have hassoc : (ds ++ '.' :: fs) ++ rest = ds ++ '.' :: (fs ++ rest) := by
      simp [List.append_assoc]
    rw [hassoc, numLit,
      takeDigits_exact ds ('.' :: (fs ++ rest)) hall
        (by intro d t hdt; injection hdt with h1 _; rw [← h1]; decide)]
    dsimp only
    rw [if_neg (by rw [hemp]; exact Bool.false_ne_true)]
    split
    · rename_i t ht
      injection ht with h1 h2
      subst h2
      rw [takeDigits_exact fs rest hfall hr]
      dsimp only
      rw [if_neg (by rw [hfemp]; exact Bool.false_ne_true)]
    · rename_i hno
      exact absurd rfl (hno (fs ++ rest))

theorem pctM_none_after_num (m : List Char) (v : ℚ) (r : List Char) (hm : NumTok m v)
    (hr1 : ∀ d t, r = d :: t → d.isDigit = false)
    (hr2 : ∀ t, r ≠ '.' :: t) (hr3 : ∀ t, r ≠ '%' :: t) :
    pctM (m ++ r) = none := by
  rw [pctM, numLit_complete m v hm r hr1 hr2]
  split
  · rename_i p r2 heq
    injection heq with h1
    injection h1 with hp hr
    exact absurd hr (hr3 r2)
  · rfl

theorem pctM_none_head_nondigit (c : Char) (t : List Char) (hc : c.isDigit = false) :
    pctM (c :: t) = none := by
  have htd : takeDigits (c :: t) = ([], c :: t) := by
    rw [takeDigits, if_neg (by rw [hc]; exact Bool.false_ne_true)]
  have h1 : numLit (c :: t) = none := by
    rw [numLit, htd]
    rfl
  rw [pctM, h1]

theorem factM_none_head_nondigit (c : Char) (t : List Char) (hc : c.isDigit = false) :
    factM (c :: t) = none := by
  have htd : takeDigits (c :: t) = ([], c :: t) := by
    rw [takeDigits, if_neg (by rw [hc]; exact Bool.false_ne_true)]
  rw [factM, htd]
  rfl

theorem factM_sound (cs : List Char) (n : ℕ) (rest : List Char)
    (h : factM cs = some (n, rest)) :
    ∃ ds, ds ≠ [] ∧ (∀ c ∈ ds, c.isDigit = true) ∧
      cs = ds ++ '!' :: rest ∧ n = digitsNat ds := by
  simp only [factM] at h
  split at h
  · cases h
  · rename_i hne
    have hds : (takeDigits cs).1 ≠ [] := fun hx => hne (by rw [hx]; rfl)
    split at h
    · rename_i r heq
      injection h with h1
      injection h1 with hn hrest
      subst hrest
      exact ⟨(takeDigits cs).1, hds, takeDigits_all cs,
        by rw [← heq]; exact (takeDigits_split cs).symm, hn.symm⟩
    · cases h

theorem factM_complete (ds : List Char) (hne : ds ≠ []) (hall : ∀ c ∈ ds, c.isDigit = true)
    (r : List Char) :
    factM (ds ++ '!' :: r) = some (digitsNat ds, r) := by
  have htd : takeDigits (ds ++ '!' :: r) = (ds, '!' :: r) :=
    takeDigits_exact ds ('!' :: r) hall
      (by intro d t hdt; injection hdt with h1 _; rw [← h1]; decide)
  rw [factM, htd]
  dsimp only
  rw [if_neg (by
    cases ds with
    | nil => exact absurd rfl hne
    | cons _ _ => exact fun hx => Bool.noConfusion hx)]
  rfl

theorem sqrtM_sound (cs : List Char) (v : ℚ) (rest : List Char)
    (h : sqrtM cs = some (v, rest)) :
    ∃ m, NumTok m v ∧ cs = 's' :: 'q' :: 'r' :: 't' :: '(' :: (m ++ ')' :: rest) := by
  rw [sqrtM.eq_def] at h
  split at h
  · rename_i r
    split at h
    · rename_i v2 rest2 heq
      injection h with h1
      injection h1 with hv hrest
      obtain ⟨m, hm, hr⟩ := numLit_sound r v2 (')' :: rest2) heq
      rw [← hv, ← hrest]
      exact ⟨m, hm, by rw [hr]⟩
    · cases h
  · cases h

theorem sqrtM_complete (m : List Char) (v : ℚ) (hm : NumTok m v) (rest : List Char) :
    sqrtM ('s' :: 'q' :: 'r' :: 't' :: '(' :: (m ++ ')' :: rest)) = some (v, rest) := by
  have hnl : numLit (m ++ ')' :: rest) = some (v, ')' :: rest) :=
    numLit_complete m v hm (')' :: rest)
      (by intro d t hdt; injection hdt with h1 _; rw [← h1]; decide)
      (by intro t hdt; injection hdt with h1 _; exact absurd h1 (by decide))
  simp only [sqrtM, hnl]

theorem pctM_stable (cs : List Char) (p n : ℚ) (rest : List Char)
    (h : pctM cs = some (p, n, rest)) :
    ∃ qd d t, cs = qd ++ rest ∧ pctM qd = some (p, n, []) ∧
      qd = d :: t ∧ d.isDigit = true := by
  simp only [pctM] at h
  split at h
  · rename_i p1 r2 heqN
    split at h
    · cases h
    · rename_i hw1
      split at h
      · rename_i r4 heqO
        split at h
        · cases h
        · rename_i hw2
          split at h
          · rename_i n1 r6 heqN2
            injection h with h1
            injection h1 with hp h2
            injection h2 with hn hr6
            rw [← hp, ← hn, ← hr6]
            obtain ⟨m1, hm1, hcs⟩ := numLit_sound cs p1 ('%' :: r2) heqN
            obtain ⟨m2, hm2, hr5⟩ := numLit_sound ((takeWS r4).2) n1 r6 heqN2
            obtain ⟨d, t, hqhead, hd⟩ := NumTok_head m1 p1 hm1
            have hw1ne : (takeWS r2).1.isEmpty = false :=
              List.isEmpty_eq_false.mpr (fun hx => hw1 (by rw [hx]; rfl))
            have hw2ne : (takeWS r4).1.isEmpty = false :=
              List.isEmpty_eq_false.mpr (fun hx => hw2 (by rw [hx]; rfl))
            obtain ⟨d2, t2, hm2head, hd2⟩ := NumTok_head m2 n1 hm2
            have hn1 : numLit (m1 ++ '%' :: ((takeWS r2).1 ++ 'o' :: 'f' ::
                ((takeWS r4).1 ++ m2))) =
                some (p1, '%' :: ((takeWS r2).1 ++ 'o' :: 'f' :: ((takeWS r4).1 ++ m2))) :=
              numLit_complete m1 p1 hm1 _
                (by intro dd tt hdt; injection hdt with h1 _; rw [← h1]; decide)
                (by intro tt hdt; injection hdt with h1 _; exact absurd h1 (by decide))
            have htw1 : takeWS ((takeWS r2).1 ++ 'o' :: 'f' :: ((takeWS r4).1 ++ m2)) =
                ((takeWS r2).1, 'o' :: 'f' :: ((takeWS r4).1 ++ m2)) :=
              takeWS_exact _ _ (takeWS_all r2)
                (by intro dd tt hdt; injection hdt with h1 _; rw [← h1]; decide)
            have htw2 : takeWS ((takeWS r4).1 ++ m2) = ((takeWS r4).1, m2) :=
              takeWS_exact _ _ (takeWS_all r4)
                (by
                  intro dd tt hdt
                  rw [hm2head] at hdt
                  injection hdt with h1 _
                  rw [← h1]
                  exact digit_not_ws d2 hd2)
            have hn2 : numLit m2 = some (n1, []) := by
              have hx := numLit_complete m2 n1 hm2 []
                (by intro dd tt hdt; cases hdt) (by intro tt hdt; cases hdt)
              rwa [List.append_nil] at hx
            refine ⟨m1 ++ '%' :: ((takeWS r2).1 ++ 'o' :: 'f' :: ((takeWS r4).1 ++ m2)),
              d, t ++ '%' :: ((takeWS r2).1 ++ 'o' :: 'f' :: ((takeWS r4).1 ++ m2)),
              ?_, ?_, ?_, hd⟩
            · rw [hcs]
              have e1 : (m1 ++ '%' :: ((takeWS r2).1 ++ 'o' :: 'f' ::
                  ((takeWS r4).1 ++ m2))) ++ r6
                  = m1 ++ '%' :: ((takeWS r2).1 ++ 'o' :: 'f' ::
                      ((takeWS r4).1 ++ (m2 ++ r6))) := by
                simp [List.append_assoc]
              rw [e1, ← hr5, takeWS_split r4, ← heqO, takeWS_split r2]
            · simp [pctM, hn1, htw1, hw1ne, htw2, hw2ne, hn2]
            · rw [hqhead]
              rfl
          · cases h
      · cases h
  · cases h

theorem digit_ne (c : Char) (h : c.isDigit = true) (c2 : Char) (h2 : c2.isDigit = false) :
    c ≠ c2 := by
  intro he
  rw [he, h2] at h
  exact Bool.noConfusion h

theorem string_head_not (x y : String) (d e : Char) (t u : List Char)
    (hx : x.data = d :: t) (hy : y.data = e :: u) (hne : d ≠ e) : x ≠ y := by
  intro h
  have h2 := hy.symm.trans (h ▸ hx)
  injection h2 with h1 _
  exact hne h1.symm

theorem not_commands_of_head (x : String) (d : Char) (t : List Char) (hx : x.data = d :: t)
    (h1 : d ≠ 'q') (h2 : d ≠ 'e') (h3 : d ≠ 'h') (h4 : d ≠ 'c') (h5 : d ≠ 'l') :
    ¬(x = "quit" ∨ x = "exit") ∧ ¬x = "help" ∧ ¬x = "history" ∧ ¬x = "clear" ∧
      ¬x = "last" :=
  ⟨fun h => h.elim (fun hh => string_head_not x "quit" d 'q' t _ hx rfl h1 hh)
      (fun hh => string_head_not x "exit" d 'e' t _ hx rfl h2 hh),
   string_head_not x "help" d 'h' t _ hx rfl h3,
   string_head_not x "history" d 'h' t _ hx rfl h3,
   string_head_not x "clear" d 'c' t _ hx rfl h4,
   string_head_not x "last" d 'l' t _ hx rfl h5⟩

theorem appendCancel (a b t : List Char) (h : a ++ t = b ++ t) : a = b :=
  (List.append_inj' h rfl).1

/-- C10: the regex matchers of main.py are anchored at the start only, so
an input that begins with a recognised factorial, square root or
percentage pattern followed by arbitrary trailing characters is dispatched
exactly as if the trailing characters were absent: parseCore gives the
same answer on the full input as on the matched prefix. -/
theorem c10_prefix_dispatch (P : Prims) (st : CLISt) :
    (∀ (cs q : String) (nn : ℕ) (rest : List Char),
      factM cs.data = some (nn, rest) → cs.data = q.data ++ rest →
      parseCore P cs st = parseCore P q st) ∧
    (∀ (cs q : String) (v : ℚ) (rest : List Char),
      sqrtM cs.data = some (v, rest) → cs.data = q.data ++ rest →
      parseCore P cs st = parseCore P q st) ∧
    (∀ (cs q : String) (p n : ℚ) (rest : List Char),
      pctM cs.data = some (p, n, rest) → cs.data = q.data ++ rest →
      parseCore P cs st = parseCore P q st) := by
  refine ⟨?_, ?_, ?_⟩
  · intro cs q nn rest hf hsplit
    obtain ⟨ds, hdsne, hdsall, hshape, hnval⟩ := factM_sound cs.data nn rest hf
    have hq : q.data = ds ++ ['!'] := by
      refine appendCancel q.data (ds ++ ['!']) rest ?_
      rw [← hsplit, hshape]
      simp
    obtain ⟨d, dt, rfl⟩ : ∃ d dt, ds = d :: dt := by
      cases ds with
      | nil => exact absurd rfl hdsne
      | cons d dt => exact ⟨d, dt, rfl⟩
    have hd : d.isDigit = true := hdsall d (List.mem_cons_self d dt)
    have hxdata : cs.data = d :: (dt ++ '!' :: rest) := by rw [hshape]; rfl
    have hqdata : q.data = d :: (dt ++ ['!']) := by rw [hq]; rfl
    obtain ⟨hc1, hc2, hc3, hc4, hc5⟩ := not_commands_of_head cs d _ hxdata
      (digit_ne d hd 'q' (by decide)) (digit_ne d hd 'e' (by decide))
      (digit_ne d hd 'h' (by decide)) (digit_ne d hd 'c' (by decide))
      (digit_ne d hd 'l' (by decide))
    obtain ⟨hq1, hq2, hq3, hq4, hq5⟩ := not_commands_of_head q d _ hqdata
      (digit_ne d hd 'q' (by decide)) (digit_ne d hd 'e' (by decide))
      (digit_ne d hd 'h' (by decide)) (digit_ne d hd 'c' (by decide))
      (digit_ne d hd 'l' (by decide))
    have htok : NumTok (d :: dt) (decVal (d :: dt) []) :=
      Or.inl ⟨d :: dt, hdsne, hdsall, rfl, rfl⟩
    have hpcs : pctM cs.data = none := by
      rw [hshape]
      exact pctM_none_after_num (d :: dt) (decVal (d :: dt) []) ('!' :: rest) htok
        (by intro dd tt hdt; injection hdt with e1 _; rw [← e1]; decide)
        (by intro tt hdt; injection hdt with e1 _; exact absurd e1 (by decide))
        (by intro tt hdt; injection hdt with e1 _; exact absurd e1 (by decide))
    have hpq : pctM q.data = none := by
      rw [hq]
      exact pctM_none_after_num (d :: dt) (decVal (d :: dt) []) ['!'] htok
        (by intro dd tt hdt; injection hdt with e1 _; rw [← e1]; decide)
        (by intro tt hdt; injection hdt with e1 _; exact absurd e1 (by decide))
        (by intro tt hdt; injection hdt with e1 _; exact absurd e1 (by decide))
    have hfq : factM q.data = some (nn, []) := by
      rw [hq, hnval]
      exact factM_complete (d :: dt) hdsne hdsall []
    rw [parseCore, parseCore]
    rw [if_neg hc1, if_neg hq1, if_neg hc2, if_neg hq2, if_neg hc3, if_neg hq3,
      if_neg hc4, if_neg hq4, if_neg hc5, if_neg hq5]
    simp only [hpcs, hpq, hf, hfq]
  · intro cs q v rest hs hsplit
    obtain ⟨m, hm, hshape⟩ := sqrtM_sound cs.data v rest hs
    have hq : q.data = 's' :: 'q' :: 'r' :: 't' :: '(' :: (m ++ [')']) := by
      refine appendCancel q.data ('s' :: 'q' :: 'r' :: 't' :: '(' :: (m ++ [')'])) rest ?_
      rw [← hsplit, hshape]
      simp
    have hxdata : cs.data = 's' :: ('q' :: 'r' :: 't' :: '(' :: (m ++ ')' :: rest)) :=
      hshape
    have hqdata : q.data = 's' :: ('q' :: 'r' :: 't' :: '(' :: (m ++ [')'])) := hq
    obtain ⟨hc1, hc2, hc3, hc4, hc5⟩ := not_commands_of_head cs 's' _ hxdata
      (by decide) (by decide) (by decide) (by decide) (by decide)
    obtain ⟨hq1, hq2, hq3, hq4, hq5⟩ := not_commands_of_head q 's' _ hqdata
      (by decide) (by decide) (by decide) (by decide) (by decide)
    have hpcs : pctM cs.data = none := by
      rw [hxdata]; exact pctM_none_head_nondigit 's' _ (by decide)
    have hpq : pctM q.data = none := by
      rw [hqdata]; exact pctM_none_head_nondigit 's' _ (by decide)
    have hfcs : factM cs.data = none := by
      rw [hxdata]; exact factM_none_head_nondigit 's' _ (by decide)
    have hfq : factM q.data = none := by
      rw [hqdata]; exact factM_none_head_nondigit 's' _ (by decide)
    have hsq : sqrtM q.data = some (v, []) := by
      rw [hq]
      exact sqrtM_complete m v hm []
    rw [parseCore, parseCore]
    rw [if_neg hc1, if_neg hq1, if_neg hc2, if_neg hq2, if_neg hc3, if_neg hq3,
      if_neg hc4, if_neg hq4, if_neg hc5, if_neg hq5]
    simp only [hpcs, hpq, hfcs, hfq, hs, hsq]
  · intro cs q p n rest hp hsplit
    obtain ⟨qd, d, t, hcs, hpq0, hqd, hd⟩ := pctM_stable cs.data p n rest hp
    have hq : q.data = qd := by
      refine appendCancel q.data qd rest ?_
      rw [← hsplit, hcs]
    have hxdata : cs.data = d :: (t ++ rest) := by
      rw [hcs, hqd]
      rfl
    have hqdata : q.data = d :: t := by rw [hq, hqd]
    obtain ⟨hc1, hc2, hc3, hc4, hc5⟩ := not_commands_of_head cs d _ hxdata
      (digit_ne d hd 'q' (by decide)) (digit_ne d hd 'e' (by decide))
      (digit_ne d hd 'h' (by decide)) (digit_ne d hd 'c' (by decide))
      (digit_ne d hd 'l' (by decide))
    obtain ⟨hq1, hq2, hq3, hq4, hq5⟩ := not_commands_of_head q d _ hqdata
      (digit_ne d hd 'q' (by decide)) (digit_ne d hd 'e' (by decide))
      (digit_ne d hd 'h' (by decide)) (digit_ne d hd 'c' (by decide))
      (digit_ne d hd 'l' (by decide))
    have hpq : pctM q.data = some (p, n, []) := by rw [hq]; exact hpq0
    rw [parseCore, parseCore]
    rw [if_neg hc1, if_neg hq1, if_neg hc2, if_neg hq2, if_neg hc3, if_neg hq3,
      if_neg hc4, if_neg hq4, if_neg hc5, if_neg hq5]
    simp only [hp, hpq]

/-- Witness for C10: the lines 5!x, sqrt(25)!! and 20% of 150 ok dispatch
exactly as 5!, sqrt(25) and 20% of 150 respectively. -/
theorem c10_prefix_dispatch_witness :
    parseCore P0 "5!x" st0 = parseCore P0 "5!" st0 ∧
    parseCore P0 "sqrt(25)!!" st0 = parseCore P0 "sqrt(25)" st0 ∧
    parseCore P0 "20% of 150 ok" st0 = parseCore P0 "20% of 150" st0 :=
  ⟨(c10_prefix_dispatch P0 st0).1 "5!x" "5!" 5 ['x'] (by decide) (by decide),
   (c10_prefix_dispatch P0 st0).2.1 "sqrt(25)!!" "sqrt(25)" 25 ['!', '!']
     (by decide) (by decide),
   (c10_prefix_dispatch P0 st0).2.2 "20% of 150 ok" "20% of 150" 20 150
     [' ', 'o', 'k'] (by decide) (by decide)⟩
